import Mathlib

/-!
Verification development for the KotaDB RAG pipeline example
(`examples/rag-pipeline/rag_demo.py`).

The Python source is shallowly embedded: strings are `List Char` (or `String`
where convenient), Python `int` arithmetic is `Int`/`Nat` (Python ints are
unbounded, so no modular reduction is needed), floats that only flow through
comparisons and placeholder scores are modelled as `ℚ`, exceptions are
`Except String`, and the unbounded `while` loop of `chunk_document` is given
an explicit fuel parameter, with `none` meaning the loop has not finished
within the given fuel (so `(∀ fuel, loop fuel … = none)` states
non-termination of the source loop).
-/

namespace RagDemo


/-- ASCII model of Python's `\s` class / `str.strip` whitespace:
space, tab, newline, vertical tab, form feed, carriage return. -/
def isPySpace (c : Char) : Bool :=
  c = ' ' ∨ c = '\t' ∨ c = '\n' ∨ c = '\x0b' ∨ c = '\x0c' ∨ c = '\r'

/-- Characters removed by `re.sub(r'[\x00-\x1f\x7f]', '', content)` in
`DocumentChunker._clean_content`. -/
def isCtrlChar (c : Char) : Bool :=
  c.toNat ≤ 0x1f ∨ c.toNat = 0x7f

/-- Python `str.strip()` on a list of characters. -/
def pyStrip (l : List Char) : List Char :=
  ((l.dropWhile isPySpace).reverse.dropWhile isPySpace).reverse

/-- Model of `re.sub(r'\s+', ' ', content)`: every maximal run of whitespace
characters is replaced by a single space. -/
def collapseWs : List Char → List Char
  | [] => []
  | [c] => if isPySpace c then [' '] else [c]
  | c :: d :: rest =>
    if isPySpace c then
      if isPySpace d then collapseWs (d :: rest)
      else ' ' :: d :: collapseWs rest
    else c :: collapseWs (d :: rest)

/-- `DocumentChunker._clean_content`: collapse whitespace runs to a single
space, remove control characters, then strip. -/
def cleanContent (l : List Char) : List Char :=
  pyStrip ((collapseWs l).filter (fun c => !isCtrlChar c))

/-- Python slicing `l[a:b]` with full negative-index and clipping semantics. -/
def pySlice (l : List Char) (a b : Int) : List Char :=
  (l.take (if b < 0 then max ((l.length : Int) + b) 0 else min b (l.length : Int)).toNat).drop
    (if a < 0 then max ((l.length : Int) + a) 0 else min a (l.length : Int)).toNat

/-- The sentence-ending delimiters searched for by
`DocumentChunker._find_sentence_boundary`
(`['. ', '! ', '? ', '.\n', '!\n', '?\n']`). -/
def sentenceEndings : List (List Char) :=
  [['.', ' '], ['!', ' '], ['?', ' '], ['.', '\n'], ['!', '\n'], ['?', '\n']]

/-- `sub` occurs in `text` starting at index `p`. -/
def matchAt (text sub : List Char) (p : Nat) : Bool :=
  sub.isPrefixOf (text.drop p)

/-- Helper for `rfind`: the greatest `p ≤ k` at which `sub` matches, if any. -/
def rfindAux (text sub : List Char) : Nat → Option Nat
  | 0 => if matchAt text sub 0 then some 0 else none
  | k + 1 => if matchAt text sub (k + 1) then some (k + 1) else rfindAux text sub k

/-- Python `text.rfind(sub)`: highest index at which `sub` occurs, `-1` if
absent (for nonempty `sub`, as used by the chunker). -/
def rfind (text sub : List Char) : Int :=
  match rfindAux text sub text.length with
  | some p => (p : Int)
  | none => -1

/-- One step of the loop in `_find_sentence_boundary`: for delimiter `e`,
take its rightmost occurrence `pos = text.rfind(e)` and keep it when it
beats the best candidate so far and lies beyond 80% of the text
(`pos > len(text) * 0.8`, exact here as `4 * len < 5 * pos`; the float
product `len * 0.8` rounds to the exact value for the lengths involved),
recording `pos + len(ending) - 1`. -/
def boundaryStep (text : List Char) (best : Int) (e : List Char) : Int :=
  if best < rfind text e ∧ 4 * (text.length : Int) < 5 * rfind text e then
    rfind text e + (e.length : Int) - 1
  else best

/-- `DocumentChunker._find_sentence_boundary`: fold `boundaryStep` over the
six sentence-ending delimiters starting from `best_pos = -1`. -/
def findSentenceBoundary (text : List Char) : Int :=
  sentenceEndings.foldl (boundaryStep text) (-1)

/-- One window cut of `DocumentChunker.chunk_document`: the loop body's
computation of `end` from `start` (try `start + chunk_size`, and when that
falls strictly inside the text, move the cut to just after a sentence
boundary found in the window, if any). -/
def cutEnd (chunkSize : Nat) (content : List Char) (start : Int) : Int :=
  if start + (chunkSize : Int) < (content.length : Int) then
    if findSentenceBoundary (pySlice content start (start + (chunkSize : Int))) ≠ -1 then
      start + findSentenceBoundary (pySlice content start (start + (chunkSize : Int))) + 1
    else start + (chunkSize : Int)
  else start + (chunkSize : Int)

/-- A chunk as accumulated inside the `while` loop of `chunk_document`:
content plus the `chunk_index` / `start_char` / `end_char` entries of its
metadata (`chunk_count` is backfilled after the loop). -/
structure RawChunk where
  content : List Char
  chunkIndex : Nat
  startChar : Int
  endChar : Int
deriving DecidableEq, Repr

/-- The `while start < len(content)` loop of `chunk_document`, with explicit
fuel: `none` means the loop did not finish within `fuel` iterations.
Each iteration cuts a window, appends it (unless its stripped content is
empty) and advances `start` to `end - overlap`. -/
def chunkLoop (chunkSize overlap : Nat) (content : List Char) :
    Nat → Int → Nat → List RawChunk → Option (List RawChunk)
  | 0, start, _idx, acc =>
    if start < (content.length : Int) then none else some acc
  | fuel + 1, start, idx, acc =>
    if start < (content.length : Int) then
      chunkLoop chunkSize overlap content fuel
        (cutEnd chunkSize content start - (overlap : Int)) (idx + 1)
        (if pyStrip (pySlice content start (cutEnd chunkSize content start)) = [] then acc
         else acc ++ [⟨pyStrip (pySlice content start (cutEnd chunkSize content start)),
                        idx, start, cutEnd chunkSize content start⟩])
    else some acc

/-- A chunk as returned by `chunk_document`: the single-chunk early return
carries no character offsets, loop-produced chunks do. -/
structure Chunk where
  content : List Char
  chunkIndex : Nat
  chunkCount : Nat
  startChar : Option Int
  endChar : Option Int
deriving DecidableEq, Repr

/-- `DocumentChunker.chunk_document` (the caller-metadata dictionary is
passed through unchanged and is not modelled; the chunk-level fields
`chunk_index`, `chunk_count`, `start_char`, `end_char` are). The source loop
has no bound, so it is run here with fuel `len(content) + 1`; `none` means
the source loop runs longer than that (for configurations where it
terminates at all, `start` strictly increases per iteration, so this fuel is
sufficient). After the loop every chunk's `chunk_count` is backfilled to the
total number of chunks produced. -/
def chunkDocument (chunkSize overlap : Nat) (raw : List Char) : Option (List Chunk) :=
  let content := cleanContent raw
  if content.length ≤ chunkSize then
    some [⟨content, 0, 1, none, none⟩]
  else
    (chunkLoop chunkSize overlap content (content.length + 1) 0 0 []).map
      (fun rcs => rcs.map
        (fun rc => ⟨rc.content, rc.chunkIndex, rcs.length, some rc.startChar, some rc.endChar⟩))

/-- `DocumentChunker.__init__`: plain field assignment, no validation of any
kind is performed on `chunk_size` or `overlap`. -/
structure DocumentChunker where
  chunkSize : Nat
  overlap : Nat
deriving DecidableEq, Repr

/-- Constructing a `DocumentChunker` (`__init__` just stores the two
arguments; it cannot fail). -/
def documentChunkerInit (chunkSize overlap : Nat) : DocumentChunker :=
  ⟨chunkSize, overlap⟩

/-- The `RAGConfig` dataclass: plain fields with defaults, no `__post_init__`
and no validation. -/
structure RAGConfig where
  chunkSize : Nat
  chunkOverlap : Nat
  maxContextLength : Nat
  embeddingModel : String
  completionModel : String
  temperature : ℚ
  maxResults : Nat
deriving DecidableEq, Repr

/-- Constructing a `RAGConfig` (dataclass construction: field storage only,
it cannot fail). -/
def ragConfigMk (chunkSize chunkOverlap maxContextLength : Nat)
    (embeddingModel completionModel : String) (temperature : ℚ)
    (maxResults : Nat) : RAGConfig :=
  ⟨chunkSize, chunkOverlap, maxContextLength, embeddingModel, completionModel,
    temperature, maxResults⟩

/-- The default `RAGConfig` values from the dataclass. -/
def ragConfigDefault : RAGConfig :=
  ragConfigMk 1000 100 4000 "text-embedding-ada-002" "gpt-3.5-turbo" (7/10) 5

/-- Position `p` of `text` carries a qualifying sentence boundary: some
delimiter matches there and `p` lies strictly beyond 80% of the text. -/
def qualAt (text : List Char) (p : Nat) : Prop :=
  (∃ e ∈ sentenceEndings, matchAt text e p = true) ∧ 4 * text.length < 5 * p

instance (text : List Char) (p : Nat) : Decidable (qualAt text p) := by
  unfold qualAt
  infer_instance

/-- Invariant of the `best_pos` accumulator in `_find_sentence_boundary`:
it is `-1` or one past a qualifying boundary position. -/
def GoodBest (text : List Char) (b : Int) : Prop :=
  b = -1 ∨ ∃ p : Nat, b = (p : Int) + 1 ∧ qualAt text p

/-- Input on which `chunk_document` with `chunk_size=20, overlap=19`
(a configuration satisfying `0 ≤ overlap < chunk_size`) never terminates:
17 letters, a sentence delimiter, then 11 more letters. -/
def c3text : List Char := "aaaaaaaaaaaaaaaaa. bbbbbbbbbbb".toList

/-- Input on which `chunk_document` with the degenerate configuration
`chunk_size=2, overlap=2` never terminates. -/
def c2text : List Char := "aaa".toList

/-- A 25-character text whose first 20-character window has its only
sentence delimiter starting exactly at position 16 = 0.8 * 20. -/
def c7text : List Char := "abcdefghijklmnop. qrstuvw".toList

/-- A document as returned by the KotaDB store collaborator
(`results['documents']` entries: title, content, tags). -/
structure StoreDoc where
  title : String
  content : String
  tags : List String
deriving DecidableEq, Repr

/-- A store query as assembled through `QueryBuilder` (optional full-text
filter, tag filters in order, limit). -/
structure StoreQuery where
  text : Option String
  tagFilters : List String
  limit : Nat
deriving DecidableEq, Repr

/-- The candidate query of `semantic_search`:
`QueryBuilder().tag_filter("knowledge-base").tag_filter("chunk").limit(1000)`. -/
def kbChunkQuery : StoreQuery := ⟨none, ["knowledge-base", "chunk"], 1000⟩

/-- The query of `_fallback_text_search`:
`QueryBuilder().text(query).tag_filter("knowledge-base").limit(max_results)`. -/
def fallbackQuery (query : String) (maxResults : Nat) : StoreQuery :=
  ⟨some query, ["knowledge-base"], maxResults⟩

/-- Parsed view of the JSON payload of a `metadata:<json>` tag, as consumed
by `semantic_search` (`metadata.get('embedding', [])`; an absent key is the
empty list). Embedding components (Python floats that are only compared and
copied here) are modelled as `ℚ`. -/
structure ChunkMeta where
  embedding : List ℚ
deriving DecidableEq, Repr

/-- An entry of the list returned by `semantic_search` /
`_fallback_text_search`: document, similarity score, and (on the semantic
path only) the parsed metadata. -/
structure SearchResult where
  document : StoreDoc
  similarity : ℚ
  meta : Option ChunkMeta
deriving DecidableEq, Repr

/-- The fixed sentinel similarity (0.5) attached to lexical fallback hits. -/
def sentinelScore : ℚ := 1 / 2

/-- Descending-similarity comparison used by the sort in `semantic_search`
(`key=lambda x: x['similarity'], reverse=True`). -/
def simGe (a b : SearchResult) : Prop := b.similarity ≤ a.similarity

instance (a b : SearchResult) : Decidable (simGe a b) :=
  inferInstanceAs (Decidable (b.similarity ≤ a.similarity))

instance : IsTotal SearchResult simGe :=
  ⟨fun a b => le_total b.similarity a.similarity⟩

instance : IsTrans SearchResult simGe :=
  ⟨fun _ _ _ h1 h2 => le_trans h2 h1⟩

/-- Per-candidate processing of `semantic_search`: find the first
`metadata:` tag, parse its JSON (a failure is caught and the candidate
skipped), and keep the candidate when its stored embedding is non-empty.
`parseMeta` stands for the external `json.loads`, `cossim` for
`_cosine_similarity` (a total function: its zero-magnitude case is guarded
and returns 0.0 rather than raising). -/
def chunkSim (parseMeta : String → Except String ChunkMeta)
    (cossim : List ℚ → List ℚ → ℚ) (qEmb : List ℚ) (doc : StoreDoc) :
    Option SearchResult :=
  match doc.tags.filter (fun t => "metadata:".toList.isPrefixOf t.toList) with
  | [] => none
  | t :: _ =>
    match parseMeta (String.mk (t.toList.drop 9)) with
    | .error _ => none
    | .ok m =>
      if m.embedding = [] then none
      else some ⟨doc, cossim qEmb m.embedding, some m⟩

/-- `max_results = max_results or self.config.max_results` (note Python
truthiness: an explicit `0` is falsy and also falls back to the config). -/
def resolveMaxResults (cfg : RAGConfig) (o : Option Nat) : Nat :=
  match o with
  | none => cfg.maxResults
  | some n => if n = 0 then cfg.maxResults else n

/-- The body of the `try:` block of `semantic_search`: embed the query,
fetch all knowledge-base chunk candidates, return `[]` if there are none,
otherwise score the usable candidates, sort by similarity descending
(Python's `list.sort` is stable; a stable sort by key is extensionally
unique, and is modelled here by insertion sort) and take the first
`max_results`. An `error` value models an exception escaping the block. -/
def semanticMain (embed : String → Except String (List ℚ))
    (parseMeta : String → Except String ChunkMeta)
    (cossim : List ℚ → List ℚ → ℚ)
    (store : StoreQuery → Except String (List StoreDoc))
    (query : String) (maxR : Nat) : Except String (List SearchResult) :=
  match embed query with
  | .error e => .error e
  | .ok qEmb =>
    match store kbChunkQuery with
    | .error e => .error e
    | .ok docs =>
      if docs = [] then .ok []
      else .ok ((List.insertionSort simGe
        (docs.filterMap (chunkSim parseMeta cossim qEmb))).take maxR)

/-- `RAGPipeline._fallback_text_search`: query the store with a text filter;
its own `except:` handler turns any store failure into `[]`, so the result
is always `ok`. Hits carry the sentinel score and no metadata. -/
def fallbackTextSearchE (store : StoreQuery → Except String (List StoreDoc))
    (query : String) (maxR : Nat) : Except String (List SearchResult) :=
  match store (fallbackQuery query maxR) with
  | .ok docs => .ok (docs.map (fun d => ⟨d, sentinelScore, none⟩))
  | .error _ => .ok []

/-- `RAGPipeline.semantic_search`: run the semantic path; its `except:`
handler falls back to `_fallback_text_search`. -/
def semanticSearchE (embed : String → Except String (List ℚ))
    (parseMeta : String → Except String ChunkMeta)
    (cossim : List ℚ → List ℚ → ℚ)
    (store : StoreQuery → Except String (List StoreDoc))
    (cfg : RAGConfig) (query : String) (mro : Option Nat) :
    Except String (List SearchResult) :=
  match semanticMain embed parseMeta cossim store query (resolveMaxResults cfg mro) with
  | .ok r => .ok r
  | .error _ => fallbackTextSearchE store query (resolveMaxResults cfg mro)

/-- Python `str.lower()` (ASCII model). -/
def pyLower (l : List Char) : List Char := l.map Char.toLower

/-- Helper for `splitWs` (accumulates the current word reversed). -/
def splitWsAux : List Char → List Char → List (List Char)
  | cur, [] => if cur = [] then [] else [cur.reverse]
  | cur, c :: rest =>
    if isPySpace c then
      if cur = [] then splitWsAux [] rest else cur.reverse :: splitWsAux [] rest
    else splitWsAux (c :: cur) rest

/-- Python `str.split()` with no argument: split on whitespace runs and drop
empty pieces. -/
def splitWs (l : List Char) : List (List Char) := splitWsAux [] l

/-- The characters of the class in `re.split(r'[.!?]+', context)`. -/
def isSentencePunc (c : Char) : Bool := c = '.' ∨ c = '!' ∨ c = '?'

/-- Helper for `splitSentencePunc`: maximal runs of `.!?` separate pieces,
empty pieces (at the ends or nowhere else, since runs are maximal) are
kept, as `re.split` does. -/
def splitPuncAux : List Char → List Char → List (List Char)
  | cur, [] => [cur.reverse]
  | cur, c :: rest =>
    if isSentencePunc c then
      match rest with
      | [] => [cur.reverse, []]
      | d :: rest' =>
        if isSentencePunc d then splitPuncAux cur (d :: rest')
        else cur.reverse :: splitPuncAux [] (d :: rest')
    else splitPuncAux (c :: cur) rest

/-- `re.split(r'[.!?]+', s)`. -/
def splitSentencePunc (l : List Char) : List (List Char) := splitPuncAux [] l

/-- `len(question_words.intersection(sentence_words))`: number of distinct
question words that also occur among the sentence words. -/
def overlapCount (questionWords sentenceWords : List (List Char)) : Nat :=
  (questionWords.dedup.filter (fun w => decide (w ∈ sentenceWords))).length

/-- The fixed insufficient-information message of
`_generate_fallback_answer`. -/
def msgInsufficient : List Char :=
  "I don't have enough information in the knowledge base to answer this question.".toList

/-- The fixed related-but-unanswerable message of
`_generate_fallback_answer`. -/
def msgUnanswerable : List Char :=
  "The knowledge base contains related information, but I cannot generate a specific answer without AI capabilities.".toList

/-- The explanatory label prepended to an extractive answer. -/
def answerLabel : List Char := "Based on the knowledge base: ".toList

/-- The `best_sentences` list built by `_generate_fallback_answer`'s loop:
split the context on sentence punctuation, strip each sentence, skip those
shorter than 10 characters, keep `(sentence, overlap)` for positive
case-insensitive whitespace-token overlap with the question, in document
order. -/
def fallbackCandidates (question context : List Char) : List (List Char × Nat) :=
  (splitSentencePunc context).filterMap (fun s0 =>
    if (pyStrip s0).length < 10 then none
    else
      if 0 < overlapCount (splitWs (pyLower question)) (splitWs (pyLower (pyStrip s0))) then
        some (pyStrip s0,
          overlapCount (splitWs (pyLower question)) (splitWs (pyLower (pyStrip s0))))
      else none)

/-- Descending-overlap comparison used by the sort in
`_generate_fallback_answer` (`key=lambda x: x[1], reverse=True`). -/
def ovGe (a b : List Char × Nat) : Prop := b.2 ≤ a.2

instance (a b : List Char × Nat) : Decidable (ovGe a b) :=
  inferInstanceAs (Decidable (b.2 ≤ a.2))

instance : IsTotal (List Char × Nat) ovGe := ⟨fun a b => Nat.le_total b.2 a.2⟩

instance : IsTrans (List Char × Nat) ovGe := ⟨fun _ _ _ h1 h2 => le_trans h2 h1⟩

/-- `RAGPipeline._generate_fallback_answer`: empty stripped context yields
the insufficient-information message; otherwise sort the candidate
sentences by overlap descending (Python's `list.sort` is stable; modelled
by the stable insertion sort) and return the first, prefixed with the
label, or the unanswerable message when there is no candidate. -/
def generateFallbackAnswer (question context : List Char) : List Char :=
  if pyStrip context = [] then msgInsufficient
  else
    match List.insertionSort ovGe (fallbackCandidates question context) with
    | [] => msgUnanswerable
    | (s, _) :: _ => answerLabel ++ s

/-- Python `str.strip()` on `String`. -/
def pyStripS (s : String) : String := String.mk (pyStrip s.toList)

/-- The `context_parts` list built by the loop of
`RAGPipeline.generate_answer`: a `From '<title>':\n<content>` paragraph per
passed document whose stripped content is non-empty, in order. -/
def contextParts : List SearchResult → List String
  | [] => []
  | r :: rest =>
    if pyStripS r.document.content = "" then contextParts rest
    else ("From '" ++ r.document.title ++ "':\n" ++ pyStripS r.document.content) ::
      contextParts rest

/-- The `sources` list built by the same loop (one title per document with
non-empty stripped content — all of them, not only the included ones). -/
def sourcesAll : List SearchResult → List String
  | [] => []
  | r :: rest =>
    if pyStripS r.document.content = "" then sourcesAll rest
    else r.document.title :: sourcesAll rest

/-- `context = "\n\n".join(context_parts[:3])`. -/
def buildContext (docs : List SearchResult) : String :=
  String.intercalate "\n\n" ((contextParts docs).take 3)

/-- The dictionary returned by `generate_answer`. -/
structure AnswerResult where
  answer : String
  contextUsed : String
  sources : List String
  contextDocsCount : Nat
deriving DecidableEq, Repr

/-- `RAGPipeline.generate_answer` with `context_docs` supplied by the
caller, in the environment without a generative backend (`HAS_OPENAI and
OPENAI_API_KEY` false), so the extractive fallback produces the answer.
`list(set(sources))` has unspecified order in Python; it is modelled as
`List.dedup`, and the theorems about `sources` are stated up to membership,
which is order-independent. The configured `max_context_length` is not read
anywhere in the source of this method. -/
def generateAnswer (question : String) (contextDocs : List SearchResult) : AnswerResult :=
  { answer := String.mk
      (generateFallbackAnswer question.toList (buildContext contextDocs).toList)
    contextUsed := buildContext contextDocs
    sources := (sourcesAll contextDocs).dedup
    contextDocsCount := contextDocs.length }

/-- Values stored in the caller-visible metadata dictionary of
`ingest_document` (strings and integers occur). -/
inductive MetaVal where
  | str (s : String)
  | num (n : Nat)
deriving DecidableEq, Repr

/-- Python `dict` update with a single key: overwrite the existing entry in
place if the key is present, otherwise append a new entry at the end
(insertion order preserved). -/
def pyDictSet (d : List (String × MetaVal)) (k : String) (v : MetaVal) :
    List (String × MetaVal) :=
  if d.any (fun kv => kv.1 == k) then
    d.map (fun kv => if kv.1 == k then (k, v) else kv)
  else d ++ [(k, v)]

/-- Python `dict` lookup returning `None` when absent. -/
def dictGet (d : List (String × MetaVal)) (k : String) : Option MetaVal :=
  (d.find? (fun kv => kv.1 == k)).map (fun kv => kv.2)

/-- The metadata handling at the top of `RAGPipeline.ingest_document`
(`metadata = metadata or {}` followed by
`metadata.update({'source': source or 'unknown', 'ingested_at': ...,
'content_length': len(content)})`): returns the state of the
caller-supplied dictionary after the call. Because `or` tests Python
truthiness, an empty caller dictionary is replaced by a fresh one and left
untouched; a non-empty one is mutated in place by `update` (keys in the
literal's order). `datetime.now().isoformat()` is the parameter `now`;
`source or 'unknown'` maps `None` and the empty string to `'unknown'`. -/
def ingestMetadataAfter (m : List (String × MetaVal)) (source : Option String)
    (now : String) (contentLength : Nat) : List (String × MetaVal) :=
  if m = [] then m
  else
    pyDictSet
      (pyDictSet
        (pyDictSet m "source"
          (MetaVal.str (match source with
            | some s => if s = "" then "unknown" else s
            | none => "unknown")))
        "ingested_at" (MetaVal.str now))
      "content_length" (MetaVal.num contentLength)

/-- Concrete store documents and collaborators used in counterexamples and
witnesses. -/
def c4doc : StoreDoc := ⟨"Doc", "vector search notes", ["knowledge-base", "chunk"]⟩

def c4store : StoreQuery → Except String (List StoreDoc) := fun _ => .ok [c4doc]

def c4embed : String → Except String (List ℚ) := fun _ => .ok [1]

def c4parse : String → Except String ChunkMeta := fun _ => .error "bad json"

def c4cos : List ℚ → List ℚ → ℚ := fun _ _ => 0

/-- A store whose every query raises. -/
def raisingStore : StoreQuery → Except String (List StoreDoc) := fun _ => .error "down"

/-- Configuration with a small `max_context_length`, and a single passed
chunk whose paragraph alone exceeds it. -/
def c5cfg : RAGConfig :=
  ragConfigMk 1000 100 10 "text-embedding-ada-002" "gpt-3.5-turbo" (7/10) 5

def c5doc : SearchResult := ⟨⟨"T", "abcdefghikl", []⟩, 1, none⟩

def c9docs : List SearchResult :=
  [⟨⟨"D1", "c1", []⟩, 1, none⟩, ⟨⟨"D2", "c2", []⟩, 1, none⟩,
   ⟨⟨"D3", "c3", []⟩, 1, none⟩, ⟨⟨"D4", "c4", []⟩, 1, none⟩]

example : cleanContent "  a\t\nb  ".toList = "a b".toList := by decide
example : pySlice "hello".toList 1 3 = "el".toList := by decide
example : pySlice "hello".toList (-2) 5 = "lo".toList := by decide
example : pySlice "hello".toList (-1) 3 = [] := by decide
example : rfind "a. b. c".toList ['.', ' '] = 4 := by decide
example : rfind "abc".toList ['.', ' '] = -1 := by decide
example : findSentenceBoundary "aaaaaaaaaaaaaaaaa. b".toList = 18 := by decide
example : cutEnd 20 "aaaaaaaaaaaaaaaaa. bbbbbbbbbbb".toList 0 = 19 := by decide
example :
    chunkDocument 5 1 "ab cd ef".toList =
      some [⟨"ab cd".toList, 0, 2, some 0, some 5⟩,
            ⟨"d ef".toList, 1, 2, some 4, some 9⟩] := by decide

lemma sentenceEndings_shape {e : List Char} (he : e ∈ sentenceEndings) :
    ∃ a b, e = [a, b] ∧ (a = '.' ∨ a = '!' ∨ a = '?') ∧ (b = ' ' ∨ b = '\n') := by
  simp only [sentenceEndings, List.mem_cons, List.not_mem_nil, or_false] at he
  rcases he with h | h | h | h | h | h <;> subst h <;>
    exact ⟨_, _, rfl, by decide, by decide⟩

lemma matchAt_two {text : List Char} {a b : Char} {p : Nat} :
    matchAt text [a, b] p = true ↔ ∃ t, text.drop p = a :: b :: t := by
  unfold matchAt
  rw [ List.isPrefixOf_iff_prefix]
  constructor
  · rintro ⟨t, ht⟩
    exact ⟨t, ht.symm⟩
  · rintro ⟨t, ht⟩
    exact ⟨t, ht.symm⟩

lemma matchAt_ge_length {text sub : List Char} {p : Nat} (hsub : sub ≠ [])
    (h : text.length ≤ p) : matchAt text sub p = false := by
  unfold matchAt
  rw [List.drop_eq_nil_of_le h]
  cases sub with
  | nil => exact absurd rfl hsub
  | cons a t => rfl

lemma no_adjacent_matches {text e e' : List Char} {p : Nat}
    (he : e ∈ sentenceEndings) (he' : e' ∈ sentenceEndings)
    (h1 : matchAt text e p = true) (h2 : matchAt text e' (p + 1) = true) : False := by
  obtain ⟨a, b, rfl, _, hb⟩ := sentenceEndings_shape he
  obtain ⟨a', b', rfl, ha', _⟩ := sentenceEndings_shape he'
  rw [matchAt_two] at h1 h2
  obtain ⟨t, ht⟩ := h1
  obtain ⟨t', ht'⟩ := h2
  have hd : text.drop (p + 1) = b :: t := by
    have h1 : List.drop 1 (List.drop p text) = List.drop (p + 1) text :=
      List.drop_drop 1 p text
    rw [ht] at h1
    simpa using h1.symm
  rw [hd] at ht'
  have hba : b = a' := (List.cons.injEq _ _ _ _ ▸ ht').1
  rcases hb with rfl | rfl <;> rcases ha' with rfl | rfl | rfl <;> exact absurd hba (by decide)

lemma rfindAux_some {text sub : List Char} :
    ∀ {k p : Nat}, rfindAux text sub k = some p →
      matchAt text sub p = true ∧ p ≤ k ∧
        ∀ q, q ≤ k → matchAt text sub q = true → q ≤ p := by
  intro k
  induction k with
  | zero =>
    intro p h
    simp only [rfindAux] at h
    split_ifs at h with hm
    · cases h
      exact ⟨hm, le_refl 0, fun q hq _ => hq⟩
  | succ k ih =>
    intro p h
    simp only [rfindAux] at h
    split_ifs at h with hm
    · cases h
      exact ⟨hm, le_refl _, fun q hq _ => hq⟩
    · obtain ⟨h1, h2, h3⟩ := ih h
      refine ⟨h1, h2.trans (Nat.le_succ k), fun q hq hmq => ?_⟩
      rcases eq_or_lt_of_le hq with rfl | hlt
      · exact absurd hmq (by simpa using hm)
      · exact h3 q (Nat.lt_succ_iff.mp hlt) hmq

lemma rfindAux_none {text sub : List Char} :
    ∀ {k : Nat}, rfindAux text sub k = none →
      ∀ q, q ≤ k → matchAt text sub q = false := by
  intro k
  induction k with
  | zero =>
    intro h q hq
    simp only [rfindAux] at h
    split_ifs at h with hm
    interval_cases q
    simpa using hm
  | succ k ih =>
    intro h q hq
    simp only [rfindAux] at h
    split_ifs at h with hm
    rcases eq_or_lt_of_le hq with rfl | hlt
    · simpa using hm
    · exact ih h q (Nat.lt_succ_iff.mp hlt)

lemma rfind_cases (text sub : List Char) (hsub : sub ≠ []) :
    (rfind text sub = -1 ∧ ∀ q, matchAt text sub q = false) ∨
    (∃ p : Nat, rfind text sub = (p : Int) ∧ matchAt text sub p = true ∧
      ∀ q, matchAt text sub q = true → q ≤ p) := by
  unfold rfind
  rcases hfa : rfindAux text sub text.length with _ | p
  · refine Or.inl ⟨rfl, fun q => ?_⟩
    by_cases hq : q ≤ text.length
    · exact rfindAux_none hfa q hq
    · exact matchAt_ge_length hsub (by omega)
  · obtain ⟨h1, _h2, h3⟩ := rfindAux_some hfa
    refine Or.inr ⟨p, rfl, h1, fun q hq => ?_⟩
    by_cases hql : q ≤ text.length
    · exact h3 q hql hq
    · exact absurd hq (by rw [matchAt_ge_length hsub (by omega)]; simp)

lemma foldl_boundaryStep_spec (text : List Char) :
    ∀ (es : List (List Char)) (b : Int), (∀ e ∈ es, e ∈ sentenceEndings) →
      GoodBest text b →
      GoodBest text (es.foldl (boundaryStep text) b) ∧
      b ≤ es.foldl (boundaryStep text) b ∧
      ∀ e ∈ es, ∀ q : Nat, matchAt text e q = true → 4 * text.length < 5 * q →
        (q : Int) + 1 ≤ es.foldl (boundaryStep text) b := by
  intro es
  induction es with
  | nil =>
    intro b _ hg
    exact ⟨hg, le_refl b, by simp⟩
  | cons e es ih =>
    intro b hes hg
    have heS : e ∈ sentenceEndings := hes e (by simp)
    have hene : e ≠ [] := by
      obtain ⟨a, bb, rfl, _, _⟩ := sentenceEndings_shape heS
      simp
    have hstep : GoodBest text (boundaryStep text b e) ∧ b ≤ boundaryStep text b e ∧
        ∀ q : Nat, matchAt text e q = true → 4 * text.length < 5 * q →
          (q : Int) + 1 ≤ boundaryStep text b e := by
      unfold boundaryStep
      split_ifs with hc
      · obtain ⟨hlt, hql⟩ := hc
        rcases rfind_cases text e hene with ⟨hneg, _⟩ | ⟨p, hp, hmp, hmax⟩
        · rw [hneg] at hql
          have : (0 : Int) ≤ 4 * text.length := by positivity
          omega
        · obtain ⟨a, bb, rfl, _, _⟩ := sentenceEndings_shape heS
          have hqn : 4 * text.length < 5 * p := by
            rw [hp] at hql
            exact_mod_cast hql
          refine ⟨Or.inr ⟨p, ?_, ⟨⟨[a, bb], heS, hmp⟩, hqn⟩⟩, ?_, ?_⟩
          · simp only [hp, List.length_cons, List.length_nil]
            push_cast
            ring
          · rw [hp] at hlt
            simp only [hp, List.length_cons, List.length_nil]
            push_cast
            omega
          · intro q hq _
            have h5 := hmax q hq
            simp only [hp, List.length_cons, List.length_nil]
            push_cast
            omega
      · refine ⟨hg, le_refl b, ?_⟩
        intro q hq hqlen
        rcases rfind_cases text e hene with ⟨_, hall⟩ | ⟨p, hp, hmp, hmax⟩
        · exact absurd hq (by rw [hall q]; simp)
        · have hqp : q ≤ p := hmax q hq
          have hql5 : 4 * (text.length : Int) < 5 * rfind text e := by
            rw [hp]
            have : 4 * text.length < 5 * p := by omega
            exact_mod_cast this
          have hble : rfind text e ≤ b := by
            by_contra hcon
            exact hc ⟨by omega, hql5⟩
          rw [hp] at hble
          rcases hg with rfl | ⟨p', hb', hqp'⟩
          · omega
          · rcases Nat.lt_or_ge p (p' + 1) with hlt | hge
            · have : (q : Int) + 1 ≤ (p' : Int) + 1 := by
                have : q ≤ p' := by omega
                omega
              omega
            · have hpp : p = p' + 1 := by omega
              obtain ⟨e'', he'', hm''⟩ := hqp'.1
              exact absurd (no_adjacent_matches he'' heS hm'' (hpp ▸ hmp)) (by simp)
    obtain ⟨hg', hble', hcov'⟩ := hstep
    obtain ⟨hgf, hbf, hcovf⟩ := ih (boundaryStep text b e) (fun x hx => hes x (by simp [hx])) hg'
    refine ⟨by simpa using hgf, ?_, ?_⟩
    · simpa using hble'.trans hbf
    · intro x hx q hq hqlen
      rcases List.mem_cons.mp hx with rfl | hxs
      · simpa using (hcov' q hq hqlen).trans hbf
      · simpa using hcovf x hxs q hq hqlen

lemma findSentenceBoundary_spec (text : List Char) :
    GoodBest text (findSentenceBoundary text) ∧
    ∀ q : Nat, qualAt text q → (q : Int) + 1 ≤ findSentenceBoundary text := by
  have h := foldl_boundaryStep_spec text sentenceEndings (-1) (fun _ he => he) (Or.inl rfl)
  exact ⟨h.1, fun q hq => h.2.2 _ hq.1.choose_spec.1 q hq.1.choose_spec.2 hq.2⟩

lemma pySlice_length (l : List Char) (a b : Int) (ha : 0 ≤ a) (hab : a ≤ b)
    (hb : b ≤ (l.length : Int)) : ((pySlice l a b).length : Int) = b - a := by
  unfold pySlice
  rw [if_neg (by omega), if_neg (by omega)]
  simp only [List.length_drop, List.length_take]
  omega

lemma qualAt_lt_length {text : List Char} {q : Nat} (h : qualAt text q) :
    q < text.length := by
  obtain ⟨⟨e, he, hm⟩, _⟩ := h
  obtain ⟨a, b, rfl, _, _⟩ := sentenceEndings_shape he
  by_contra hc
  rw [matchAt_ge_length (by simp) (by omega)] at hm
  simp at hm

lemma findSentenceBoundary_eq_neg_one {text : List Char}
    (h : ∀ q, ¬ qualAt text q) : findSentenceBoundary text = -1 := by
  rcases (findSentenceBoundary_spec text).1 with h1 | ⟨p, _, hq⟩
  · exact h1
  · exact absurd hq (h p)

lemma findSentenceBoundary_eq_of_max {text : List Char} {p : Nat}
    (hp : qualAt text p) (hmax : ∀ q, qualAt text q → q ≤ p) :
    findSentenceBoundary text = (p : Int) + 1 := by
  obtain ⟨hgood, hcov⟩ := findSentenceBoundary_spec text
  have h1 := hcov p hp
  rcases hgood with h2 | ⟨p', hp', hq'⟩
  · omega
  · have h3 := hmax p' hq'
    omega

lemma c3_loop_none : ∀ fuel idx acc,
    chunkLoop 20 19 c3text fuel 0 idx acc = none := by
  intro fuel
  induction fuel with
  | zero =>
    intro idx acc
    simp only [chunkLoop]
    rw [if_pos (by decide : (0 : Int) < (c3text.length : Int))]
  | succ fuel ih =>
    intro idx acc
    simp only [chunkLoop]
    rw [if_pos (by decide : (0 : Int) < (c3text.length : Int))]
    rw [show cutEnd 20 c3text 0 = 19 from by decide]
    rw [show (19 : Int) - (19 : Nat) = 0 from by norm_num]
    rw [if_neg (by decide : ¬ pyStrip (pySlice c3text 0 19) = [])]
    exact ih (idx + 1) _

lemma c2_loop_none : ∀ fuel idx acc,
    chunkLoop 2 2 c2text fuel 0 idx acc = none := by
  intro fuel
  induction fuel with
  | zero =>
    intro idx acc
    simp only [chunkLoop]
    rw [if_pos (by decide : (0 : Int) < (c2text.length : Int))]
  | succ fuel ih =>
    intro idx acc
    simp only [chunkLoop]
    rw [if_pos (by decide : (0 : Int) < (c2text.length : Int))]
    rw [show cutEnd 2 c2text 0 = 2 from by decide]
    rw [show (2 : Int) - (2 : Nat) = 0 from by norm_num]
    rw [if_neg (by decide : ¬ pyStrip (pySlice c2text 0 2) = [])]
    exact ih (idx + 1) _

/-- C2 (code bug): neither `RAGConfig` (a plain dataclass) nor
`DocumentChunker.__init__` performs any validation, so the degenerate
configuration `overlap >= chunk_size` (here `chunk_size = 2 = overlap`) is
accepted silently at construction time instead of failing fast — and with
it `chunk_document` loops forever on the three-character input `"aaa"`
(every iteration recomputes `start = end - overlap = 0`). -/
theorem C2_degenerate_config_accepted :
    documentChunkerInit 2 2 = { chunkSize := 2, overlap := 2 } ∧
    ragConfigMk 2 2 4000 "text-embedding-ada-002" "gpt-3.5-turbo" (7/10) 5 =
      { chunkSize := 2, chunkOverlap := 2, maxContextLength := 4000,
        embeddingModel := "text-embedding-ada-002",
        completionModel := "gpt-3.5-turbo", temperature := 7/10, maxResults := 5 } ∧
    (∀ fuel idx acc, chunkLoop 2 2 c2text fuel 0 idx acc = none) ∧
    chunkDocument 2 2 c2text = none := by
  refine ⟨rfl, rfl, c2_loop_none, ?_⟩
  simp only [chunkDocument]
  rw [show cleanContent c2text = c2text from by decide]
  rw [if_neg (by decide : ¬ c2text.length ≤ 2)]
  rw [show c2text.length + 1 = 4 from by decide]
  rw [c2_loop_none 4 0 []]
  rfl

/-- C3 (code bug): with the valid configuration `chunk_size = 20`,
`overlap = 19` (so `0 ≤ overlap < chunk_size`) and a 30-character input
whose window contains a sentence delimiter at relative position 17, the
sliding-window loop of `chunk_document` does not advance: the boundary cut
sets `end = 19`, then `start = end - overlap = 0` again, so the loop never
consumes the text and runs forever (modelled as `none` for every fuel). -/
theorem C3_loop_does_not_terminate :
    0 < 20 ∧ 19 < 20 ∧
    (∀ fuel idx acc, chunkLoop 20 19 (cleanContent c3text) fuel 0 idx acc = none) ∧
    chunkDocument 20 19 c3text = none := by
  refine ⟨by decide, by decide, ?_, ?_⟩
  · rw [show cleanContent c3text = c3text from by decide]
    exact c3_loop_none
  · simp only [chunkDocument]
    rw [show cleanContent c3text = c3text from by decide]
    rw [if_neg (by decide : ¬ c3text.length ≤ 20)]
    rw [show c3text.length + 1 = 31 from by decide]
    rw [c3_loop_none 31 0 []]
    rfl

/-- C7 counterexample: in the window `c7text[0:20]` the delimiter `'. '` at
position 16 lies wholly inside the trailing 20% of the window
(positions 16..19), yet the code's strict `pos > 0.8 * len` test rejects it
and the cut is made at `chunk_size`, not just after the delimiter. -/
theorem C7_trailing_fifth_delimiter_ignored :
    matchAt (pySlice c7text 0 20) ['.', ' '] 16 = true ∧
    20 - 20 / 5 ≤ 16 ∧ 16 + 2 ≤ 20 ∧
    cutEnd 20 c7text 0 = 0 + (20 : Int) ∧
    ¬ cutEnd 20 c7text 0 = 0 + (16 : Int) + 2 := by decide

/-- C7 amended: for a window cut strictly inside the text, if some position
`p` of the window carries a sentence delimiter and lies strictly beyond 80%
of the window (`4 * chunk_size < 5 * p`, the code's exact test) and is
rightmost such, the cut is placed just after that delimiter
(`start + p + 2`); if no position qualifies under the strict test, the cut
is exactly at `chunk_size`. -/
theorem C7_boundary_cut (cs : Nat) (content : List Char) (start : Int)
    (h1 : 0 < cs) (h2 : 0 ≤ start)
    (h3 : start + (cs : Int) < (content.length : Int)) :
    ((∀ q, q < cs → ¬ qualAt (pySlice content start (start + (cs : Int))) q) →
      cutEnd cs content start = start + (cs : Int)) ∧
    (∀ p, p < cs → qualAt (pySlice content start (start + (cs : Int))) p →
      (∀ q, q < cs → qualAt (pySlice content start (start + (cs : Int))) q → q ≤ p) →
      cutEnd cs content start = start + (p : Int) + 2) := by
  have hlen : (pySlice content start (start + (cs : Int))).length = cs := by
    have := pySlice_length content start (start + (cs : Int)) h2 (by omega) (by omega)
    omega
  constructor
  · intro hno
    have hfull : ∀ q, ¬ qualAt (pySlice content start (start + (cs : Int))) q := by
      intro q hq
      have hlt := qualAt_lt_length hq
      rw [hlen] at hlt
      exact hno q hlt hq
    unfold cutEnd
    rw [if_pos h3, findSentenceBoundary_eq_neg_one hfull]
    simp
  · intro p _hpcs hqp hmaxb
    have hmax : ∀ q, qualAt (pySlice content start (start + (cs : Int))) q → q ≤ p := by
      intro q hq
      have hlt := qualAt_lt_length hq
      rw [hlen] at hlt
      exact hmaxb q hlt hq
    unfold cutEnd
    rw [if_pos h3, findSentenceBoundary_eq_of_max hqp hmax,
      if_pos (by omega : ((p : Int) + 1) ≠ -1)]
    ring

/-- Witness for `C7_boundary_cut` at a concrete window: in the first
20-character window of `c3text`, position 17 carries the rightmost
qualifying delimiter and the cut lands at `0 + 17 + 2 = 19`. -/
theorem C7_boundary_cut_witness : cutEnd 20 c3text 0 = 0 + (17 : Int) + 2 :=
  (C7_boundary_cut 20 c3text 0 (by decide) (by decide) (by decide)).2
    17 (by decide) (by decide) (by decide)

lemma cutEnd_lower (cs ov : Nat) (content : List Char) (start : Int)
    (h1 : 0 < cs) (h2 : 5 * ov ≤ 4 * cs) (hs : 0 ≤ start) :
    start + (ov : Int) + 1 ≤ cutEnd cs content start := by
  have hovcs : ov < cs := by omega
  unfold cutEnd
  split_ifs with hin hne
  · rcases (findSentenceBoundary_spec (pySlice content start (start + (cs : Int)))).1 with
      he | ⟨p, hp, hq⟩
    · exact absurd he hne
    · rw [hp]
      have hlen := pySlice_length content start (start + (cs : Int)) hs (by omega) (by omega)
      have h4 := hq.2
      omega
  · omega
  · omega

/-- Behaviour of the `chunk_document` loop for configurations whose overlap
is at most 80% of the chunk size: the loop terminates (`start` advances by
at least one position per iteration), the produced chunks extend the
accumulator in order, and `chunk_index`, `start_char` and `end_char` grow
monotonically. -/
lemma chunkLoop_spec (cs ov : Nat) (content : List Char)
    (h1 : 0 < cs) (h2 : 5 * ov ≤ 4 * cs) :
    ∀ (fuel : Nat) (start : Int) (idx : Nat) (acc : List RawChunk),
      0 ≤ start → (content.length : Int) ≤ start + fuel →
      ∃ extra, chunkLoop cs ov content fuel start idx acc = some (acc ++ extra) ∧
        (∀ rc ∈ extra, idx ≤ rc.chunkIndex ∧ start ≤ rc.startChar ∧
          start + (ov : Int) + 1 ≤ rc.endChar) ∧
        extra.Chain' (fun a b => a.chunkIndex < b.chunkIndex ∧
          a.startChar ≤ b.startChar ∧ a.endChar ≤ b.endChar) := by
  intro fuel
  induction fuel with
  | zero =>
    intro start idx acc hs hf
    refine ⟨[], ?_, by simp, by simp⟩
    simp only [chunkLoop]
    rw [if_neg (by push_cast at hf ⊢; omega)]
    simp
  | succ fuel ih =>
    intro start idx acc hs hf
    by_cases hlt : start < (content.length : Int)
    · have hprog : start + (ov : Int) + 1 ≤ cutEnd cs content start :=
        cutEnd_lower cs ov content start h1 h2 hs
      have hnext0 : 0 ≤ cutEnd cs content start - (ov : Int) := by omega
      have hnextf : (content.length : Int) ≤ (cutEnd cs content start - (ov : Int)) + fuel := by
        push_cast at hf ⊢
        omega
      obtain ⟨extra, hrun, hmem, hchain⟩ :=
        ih (cutEnd cs content start - (ov : Int)) (idx + 1)
          (if pyStrip (pySlice content start (cutEnd cs content start)) = [] then acc
           else acc ++ [⟨pyStrip (pySlice content start (cutEnd cs content start)),
                          idx, start, cutEnd cs content start⟩])
          hnext0 hnextf
      by_cases hcc : pyStrip (pySlice content start (cutEnd cs content start)) = []
      · refine ⟨extra, ?_, ?_, hchain⟩
        · simp only [chunkLoop]
          rw [if_pos hlt]
          rw [if_pos hcc] at hrun ⊢
          exact hrun
        · intro rc hrc
          obtain ⟨ha, hb, hc⟩ := hmem rc hrc
          exact ⟨by omega, by omega, by omega⟩
      · refine ⟨⟨pyStrip (pySlice content start (cutEnd cs content start)),
            idx, start, cutEnd cs content start⟩ :: extra, ?_, ?_, ?_⟩
        · simp only [chunkLoop]
          rw [if_pos hlt]
          rw [if_neg hcc] at hrun ⊢
          rw [hrun]
          simp
        · intro rc hrc
          rcases List.mem_cons.mp hrc with rfl | hrc'
          · exact ⟨le_refl idx, le_refl start, hprog⟩
          · obtain ⟨ha, hb, hc⟩ := hmem rc hrc'
            exact ⟨by omega, by omega, by omega⟩
        · rw [List.chain'_cons']
          refine ⟨?_, hchain⟩
          intro y hy
          have hymem : y ∈ extra := List.mem_of_mem_head? hy
          obtain ⟨ha, hb, hc⟩ := hmem y hymem
          refine ⟨?_, ?_, ?_⟩
          · show idx < y.chunkIndex
            omega
          · show start ≤ y.startChar
            omega
          · show cutEnd cs content start ≤ y.endChar
            omega
    · refine ⟨[], ?_, by simp, by simp⟩
      simp only [chunkLoop]
      rw [if_neg hlt]
      simp

/-- C8 counterexample: with the valid configuration `chunk_size=1`,
`overlap=0` and input `"a b"`, the middle window `" "` is dropped for empty
content but `chunk_index` still advances, so the last returned chunk has
`chunk_index = 2 = chunk_count`, violating `chunk_index < chunk_count`. -/
theorem C8_counterexample :
    chunkDocument 1 0 "a b".toList =
      some [⟨"a".toList, 0, 2, some 0, some 1⟩, ⟨"b".toList, 2, 2, some 2, some 3⟩] ∧
    ¬ ∀ chunks, chunkDocument 1 0 "a b".toList = some chunks →
        ∀ c ∈ chunks, c.chunkIndex < c.chunkCount := by
  constructor
  · decide
  · intro hall
    have h := hall
      [⟨"a".toList, 0, 2, some 0, some 1⟩, ⟨"b".toList, 2, 2, some 2, some 3⟩]
      (by decide) ⟨"b".toList, 2, 2, some 2, some 3⟩ (by decide)
    exact absurd h (by decide)

/-- C8 amended: for every input text and every configuration with
`chunk_size > 0` and `5 * overlap ≤ 4 * chunk_size` (so the loop always
advances), `chunk_document` terminates and the returned chunks satisfy:
`chunk_count` on every chunk equals the total number of returned chunks,
`chunk_index` is strictly increasing across consecutive chunks, and the
character offsets `(start_char, end_char)` are monotonically non-decreasing
across consecutive chunks (`chunk_index < chunk_count` itself can fail when
whitespace-only windows are dropped, see `C8_counterexample`). -/
theorem C8_chunk_invariants (cs ov : Nat) (raw : List Char)
    (h1 : 0 < cs) (h2 : 5 * ov ≤ 4 * cs) :
    ∃ chunks, chunkDocument cs ov raw = some chunks ∧
      (∀ c ∈ chunks, c.chunkCount = chunks.length) ∧
      chunks.Chain' (fun a b => a.chunkIndex < b.chunkIndex ∧
        (∀ sa ∈ a.startChar, ∀ sb ∈ b.startChar, sa ≤ sb) ∧
        (∀ ea ∈ a.endChar, ∀ eb ∈ b.endChar, ea ≤ eb)) := by
  unfold chunkDocument
  by_cases hlen : (cleanContent raw).length ≤ cs
  · rw [if_pos hlen]
    exact ⟨_, rfl, by simp, by simp⟩
  · rw [if_neg hlen]
    obtain ⟨extra, hrun, hmem, hchain⟩ :=
      chunkLoop_spec cs ov (cleanContent raw) h1 h2
        ((cleanContent raw).length + 1) 0 0 [] (le_refl 0) (by push_cast; omega)
    rw [hrun]
    refine ⟨_, rfl, ?_, ?_⟩
    · intro c hc
      simp only [List.nil_append] at hc
      obtain ⟨rc, _, rfl⟩ := List.mem_map.mp hc
      simp
    · simp only [List.nil_append]
      rw [List.chain'_map]
      refine hchain.imp ?_
      intro a b hab
      refine ⟨hab.1, ?_, ?_⟩
      · intro sa hsa sb hsb
        simp only [Option.mem_def, Option.some.injEq] at hsa hsb
        omega
      · intro ea hea eb heb
        simp only [Option.mem_def, Option.some.injEq] at hea heb
        omega

/-- Witness for `C8_chunk_invariants` at a concrete input: `chunk_size=5`,
`overlap=1`, text `"ab cd ef"`. -/
theorem C8_chunk_invariants_witness :
    ∃ chunks, chunkDocument 5 1 "ab cd ef".toList = some chunks ∧
      (∀ c ∈ chunks, c.chunkCount = chunks.length) ∧
      chunks.Chain' (fun a b => a.chunkIndex < b.chunkIndex ∧
        (∀ sa ∈ a.startChar, ∀ sb ∈ b.startChar, sa ≤ sb) ∧
        (∀ ea ∈ a.endChar, ∀ eb ∈ b.endChar, ea ≤ eb)) :=
  C8_chunk_invariants 5 1 "ab cd ef".toList (by decide) (by decide)

/-- C1: for every embedder, metadata parser, similarity function, store and
query, `semantic_search` never propagates an exception (its result is
always an `ok` list), and against a store that raises on every call it
returns a (here empty, hence sentinel-scored) result set. -/
theorem C1_semantic_search_never_raises
    (embed : String → Except String (List ℚ))
    (parseMeta : String → Except String ChunkMeta)
    (cossim : List ℚ → List ℚ → ℚ)
    (store : StoreQuery → Except String (List StoreDoc))
    (cfg : RAGConfig) (query : String) (mro : Option Nat) :
    (∃ l, semanticSearchE embed parseMeta cossim store cfg query mro = .ok l) ∧
    ((∀ q, ∃ e, store q = .error e) →
      ∃ l, semanticSearchE embed parseMeta cossim store cfg query mro = .ok l ∧
        ∀ r ∈ l, r.similarity = sentinelScore) := by
  constructor
  · unfold semanticSearchE
    rcases hmain : semanticMain embed parseMeta cossim store query
        (resolveMaxResults cfg mro) with e | r
    · unfold fallbackTextSearchE
      rcases hst : store (fallbackQuery query (resolveMaxResults cfg mro)) with e2 | docs
      · exact ⟨[], rfl⟩
      · exact ⟨_, rfl⟩
    · exact ⟨r, rfl⟩
  · intro hraise
    have hmain : ∃ e, semanticMain embed parseMeta cossim store query
        (resolveMaxResults cfg mro) = .error e := by
      unfold semanticMain
      rcases hemb : embed query with e | qEmb
      · exact ⟨e, rfl⟩
      · obtain ⟨e, he⟩ := hraise kbChunkQuery
        rw [he]
        exact ⟨e, rfl⟩
    obtain ⟨e, he⟩ := hmain
    unfold semanticSearchE
    rw [he]
    unfold fallbackTextSearchE
    obtain ⟨e2, he2⟩ := hraise (fallbackQuery query (resolveMaxResults cfg mro))
    rw [he2]
    exact ⟨[], rfl, by simp⟩

/-- Witness for `C1_semantic_search_never_raises` against the concrete
always-raising store. -/
theorem C1_witness :
    ∃ l, semanticSearchE c4embed c4parse c4cos raisingStore ragConfigDefault
        "query" none = .ok l ∧ ∀ r ∈ l, r.similarity = sentinelScore :=
  (C1_semantic_search_never_raises c4embed c4parse c4cos raisingStore
    ragConfigDefault "query" none).2 (fun _ => ⟨"down", rfl⟩)

/-- C4 counterexample: the store returns one knowledge-base chunk candidate
with no `metadata:` tag (hence no usable embedding); `semantic_search`
returns the empty list instead of falling back, although
`_fallback_text_search` would have returned the chunk with the sentinel
score. -/
theorem C4_counterexample :
    semanticSearchE c4embed c4parse c4cos c4store ragConfigDefault "vector" none =
      .ok [] ∧
    c4store kbChunkQuery = .ok [c4doc] ∧ [c4doc] ≠ [] ∧
    chunkSim c4parse c4cos [1] c4doc = none ∧
    fallbackTextSearchE c4store "vector" (resolveMaxResults ragConfigDefault none) =
      .ok [⟨c4doc, sentinelScore, none⟩] ∧
    (⟨c4doc, sentinelScore, none⟩ : SearchResult) ∉ ([] : List SearchResult) := by
  refine ⟨rfl, rfl, by decide, rfl, rfl, by simp⟩

/-- C4 amended: the lexical fallback is taken only when an exception is
raised in the semantic path. When the store returns a non-empty candidate
list but no candidate yields a usable stored embedding, `semantic_search`
returns the empty list (no fallback, no sentinel-scored hits). -/
theorem C4_no_fallback_without_exception
    (embed : String → Except String (List ℚ))
    (parseMeta : String → Except String ChunkMeta)
    (cossim : List ℚ → List ℚ → ℚ)
    (store : StoreQuery → Except String (List StoreDoc))
    (cfg : RAGConfig) (query : String) (mro : Option Nat)
    (qEmb : List ℚ) (docs : List StoreDoc)
    (hemb : embed query = .ok qEmb)
    (hst : store kbChunkQuery = .ok docs)
    (hne : docs ≠ [])
    (hskip : ∀ d ∈ docs, chunkSim parseMeta cossim qEmb d = none) :
    semanticSearchE embed parseMeta cossim store cfg query mro = .ok [] := by
  have hfm : docs.filterMap (chunkSim parseMeta cossim qEmb) = [] :=
    List.filterMap_eq_nil_iff.mpr hskip
  have hmain : semanticMain embed parseMeta cossim store query
      (resolveMaxResults cfg mro) = .ok [] := by
    unfold semanticMain
    simp only [hemb, hst]
    rw [if_neg hne, hfm]
    rw [show List.insertionSort simGe ([] : List SearchResult) = [] from rfl,
      List.take_nil]
  unfold semanticSearchE
  rw [hmain]

/-- Witness for `C4_no_fallback_without_exception` at the concrete store of
the counterexample input. -/
theorem C4_witness :
    semanticSearchE c4embed c4parse c4cos c4store ragConfigDefault "vector"
      (some 2) = .ok [] :=
  C4_no_fallback_without_exception c4embed c4parse c4cos c4store ragConfigDefault
    "vector" (some 2) [1] [c4doc] rfl rfl (by decide)
    (fun d hd => by
      rw [List.mem_singleton.mp hd]
      rfl)

lemma contextParts_eq (docs : List SearchResult) :
    contextParts docs =
      (docs.filter (fun r => !(pyStripS r.document.content == ""))).map
        (fun r => "From '" ++ r.document.title ++ "':\n" ++ pyStripS r.document.content) := by
  induction docs with
  | nil => rfl
  | cons r rest ih =>
    by_cases h : pyStripS r.document.content = ""
    · simp [contextParts, h, ih, List.filter_cons]
    · simp [contextParts, h, ih, List.filter_cons]

lemma sourcesAll_eq (docs : List SearchResult) :
    sourcesAll docs =
      (docs.filter (fun r => !(pyStripS r.document.content == ""))).map
        (fun r => r.document.title) := by
  induction docs with
  | nil => rfl
  | cons r rest ih =>
    by_cases h : pyStripS r.document.content = ""
    · simp [sourcesAll, h, ih, List.filter_cons]
    · simp [sourcesAll, h, ih, List.filter_cons]

/-- C5 counterexample: with `max_context_length = 10` configured, the
context built from one 11-character chunk is 21 characters long —
`generate_answer` never consults the configured maximum. -/
theorem C5_counterexample :
    (generateAnswer "q" [c5doc]).contextUsed.length = 21 ∧
    c5cfg.maxContextLength = 10 ∧
    ¬ (generateAnswer "q" [c5doc]).contextUsed.length ≤ c5cfg.maxContextLength := by
  refine ⟨?_, rfl, ?_⟩ <;> decide

/-- C5 amended: the context string is the join of the paragraphs of the
first (at most 3) passed chunks with non-empty stripped content, each a
whole chunk prefixed by its title — but no length bound is enforced: the
configured max context length is not consulted. -/
theorem C5_context_is_first_three_whole_chunks (docs : List SearchResult) :
    buildContext docs = String.intercalate "\n\n"
      (((docs.filter (fun r => !(pyStripS r.document.content == ""))).map
        (fun r => "From '" ++ r.document.title ++ "':\n" ++
          pyStripS r.document.content)).take 3) ∧
    ((contextParts docs).take 3).length ≤ 3 := by
  constructor
  · unfold buildContext
    rw [contextParts_eq]
  · exact List.length_take_le 3 (contextParts docs)

/-- C6 counterexample: with question `"cat"` and context `"cat dog."`, the
context is non-empty and the sentence `"cat dog"` shares the word `"cat"`
with the question, yet the fixed unanswerable message is returned (the code
silently skips sentences shorter than 10 characters). -/
theorem C6_counterexample :
    pyStrip "cat dog.".toList ≠ [] ∧
    ((splitSentencePunc "cat dog.".toList).map pyStrip).any
      (fun s => decide (0 < overlapCount (splitWs (pyLower "cat".toList))
        (splitWs (pyLower s)))) = true ∧
    generateFallbackAnswer "cat".toList "cat dog.".toList = msgUnanswerable := by
  refine ⟨by decide, by decide, by decide⟩

/-- C6 amended: the three-way case split of `_generate_fallback_answer`,
with the candidate set restricted (as the code does) to sentences of at
least 10 characters after stripping: empty stripped context yields the
insufficient-information message; no candidate yields the unanswerable
message; otherwise the answer is the label followed by a candidate
sentence of maximal word-overlap with the question. -/
theorem C6_fallback_answer_cases (question context : List Char) :
    (pyStrip context = [] →
      generateFallbackAnswer question context = msgInsufficient) ∧
    (pyStrip context ≠ [] → fallbackCandidates question context = [] →
      generateFallbackAnswer question context = msgUnanswerable) ∧
    (pyStrip context ≠ [] → fallbackCandidates question context ≠ [] →
      ∃ s ov, generateFallbackAnswer question context = answerLabel ++ s ∧
        (s, ov) ∈ fallbackCandidates question context ∧
        ∀ p ∈ fallbackCandidates question context, p.2 ≤ ov) := by
  refine ⟨?_, ?_, ?_⟩
  · intro h
    unfold generateFallbackAnswer
    rw [if_pos h]
  · intro h1 h2
    unfold generateFallbackAnswer
    rw [if_neg h1, h2]
    rfl
  · intro h1 h2
    rcases hsort : List.insertionSort ovGe (fallbackCandidates question context) with
      _ | ⟨⟨s, ov⟩, rest⟩
    · have hperm := List.perm_insertionSort ovGe (fallbackCandidates question context)
      rw [hsort] at hperm
      exact absurd (List.nil_perm.mp hperm) h2
    · have hperm := List.perm_insertionSort ovGe (fallbackCandidates question context)
      rw [hsort] at hperm
      have hpair := List.sorted_insertionSort ovGe (fallbackCandidates question context)
      rw [hsort] at hpair
      obtain ⟨hhead, _⟩ := List.pairwise_cons.mp hpair
      refine ⟨s, ov, ?_, ?_, ?_⟩
      · unfold generateFallbackAnswer
        rw [if_neg h1, hsort]
      · exact hperm.mem_iff.mp (List.mem_cons_self _ _)
      · intro p hp
        have hp' : p ∈ (s, ov) :: rest := hperm.mem_iff.mpr hp
        rcases List.mem_cons.mp hp' with rfl | hpr
        · exact le_refl _
        · exact hhead p hpr

/-- Witness for `C6_fallback_answer_cases`: concrete question and context
with one qualifying overlapping sentence. -/
theorem C6_witness :
    ∃ s ov, generateFallbackAnswer "database speed".toList
        "The database is fast. Nothing else.".toList = answerLabel ++ s ∧
      (s, ov) ∈ fallbackCandidates "database speed".toList
        "The database is fast. Nothing else.".toList ∧
      ∀ p ∈ fallbackCandidates "database speed".toList
        "The database is fast. Nothing else.".toList, p.2 ≤ ov :=
  (C6_fallback_answer_cases "database speed".toList
    "The database is fast. Nothing else.".toList).2.2 (by decide) (by decide)

/-- C9 counterexample: four chunks are passed; only the first three are
included in the context, yet the title of the excluded fourth chunk still
appears in `sources`. -/
theorem C9_counterexample :
    "D4" ∈ (generateAnswer "q" c9docs).sources ∧
    "D4" ∉ (((c9docs.filter (fun r => !(pyStripS r.document.content == ""))).take 3).map
      (fun r => r.document.title)) := by
  refine ⟨by decide, by decide⟩

/-- C9 amended: `sources` is the de-duplicated set of titles of all passed
chunks with non-empty stripped content — not only of the at most 3 chunks
included in the context string. -/
theorem C9_sources_are_all_nonempty_chunks (question : String)
    (docs : List SearchResult) :
    (generateAnswer question docs).sources.Nodup ∧
    ∀ t : String, t ∈ (generateAnswer question docs).sources ↔
      t ∈ (docs.filter (fun r => !(pyStripS r.document.content == ""))).map
        (fun r => r.document.title) := by
  constructor
  · exact List.nodup_dedup _
  · intro t
    show t ∈ (sourcesAll docs).dedup ↔ _
    rw [List.mem_dedup, sourcesAll_eq]

lemma find_map_replace (d : List (String × MetaVal)) (k : String) (v : MetaVal)
    (h : d.any (fun kv => kv.1 == k) = true) :
    (d.map (fun kv => if kv.1 == k then (k, v) else kv)).find?
      (fun kv => kv.1 == k) = some (k, v) := by
  induction d with
  | nil => simp at h
  | cons kv d' ih =>
    by_cases hk : kv.1 = k
    · rw [List.map_cons, if_pos (by simpa using hk),
        List.find?_cons_of_pos _ (by simp)]
    · have h' : d'.any (fun kv => kv.1 == k) = true := by
        simpa [List.any_cons, hk] using h
      rw [List.map_cons, if_neg (by simpa using hk),
        List.find?_cons_of_neg _ (by simpa using hk)]
      exact ih h'

lemma find_map_replace_ne (d : List (String × MetaVal)) (k : String) (v : MetaVal)
    (k' : String) (h : k' ≠ k) :
    (d.map (fun kv => if kv.1 == k then (k, v) else kv)).find?
      (fun kv => kv.1 == k') = d.find? (fun kv => kv.1 == k') := by
  induction d with
  | nil => rfl
  | cons kv d' ih =>
    by_cases hk : kv.1 = k
    · have hne : ¬ ((fun kv : String × MetaVal => kv.1 == k') (k, v)) = true := by
        simp only [beq_iff_eq]
        exact fun he => h he.symm
      have hne2 : ¬ ((fun kv : String × MetaVal => kv.1 == k') kv) = true := by
        simp only [beq_iff_eq, hk]
        exact fun he => h he.symm
      rw [List.map_cons, if_pos (by simpa using hk),
        @List.find?_cons_of_neg _ (fun kv => kv.1 == k') (k, v) _ hne,
        @List.find?_cons_of_neg _ (fun kv => kv.1 == k') kv _ hne2]
      exact ih
    · by_cases hk' : kv.1 = k'
      · rw [List.map_cons, if_neg (by simpa using hk),
          @List.find?_cons_of_pos _ (fun kv => kv.1 == k') kv _ (by simpa using hk'),
          @List.find?_cons_of_pos _ (fun kv => kv.1 == k') kv _ (by simpa using hk')]
      · rw [List.map_cons, if_neg (by simpa using hk),
          @List.find?_cons_of_neg _ (fun kv => kv.1 == k') kv _ (by simpa using hk'),
          @List.find?_cons_of_neg _ (fun kv => kv.1 == k') kv _ (by simpa using hk')]
        exact ih

lemma dictGet_pyDictSet_same (d : List (String × MetaVal)) (k : String)
    (v : MetaVal) : dictGet (pyDictSet d k v) k = some v := by
  unfold pyDictSet dictGet
  split_ifs with h
  · rw [find_map_replace d k v h]
    rfl
  · rw [List.find?_append]
    have hnone : d.find? (fun kv => kv.1 == k) = none := by
      rw [List.find?_eq_none]
      intro x hx
      simp only [beq_iff_eq]
      intro hxk
      rw [List.any_eq_true] at h
      exact h ⟨x, hx, by simpa using hxk⟩
    rw [hnone, @List.find?_cons_of_pos _ (fun kv => kv.1 == k) (k, v) _ (by simp)]
    rfl

lemma dictGet_pyDictSet_other (d : List (String × MetaVal)) (k : String)
    (v : MetaVal) (k' : String) (h : k' ≠ k) :
    dictGet (pyDictSet d k v) k' = dictGet d k' := by
  unfold pyDictSet dictGet
  split_ifs with hany
  · rw [find_map_replace_ne d k v k' h]
  · rw [List.find?_append]
    have hsing : List.find? (fun kv => kv.1 == k') [(k, v)] = none := by
      rw [@List.find?_cons_of_neg _ (fun kv => kv.1 == k') (k, v) _ (by
        simp only [beq_iff_eq]
        exact fun he => h he.symm)]
      rfl
    rw [hsing]
    simp

/-- C10 counterexample: an empty caller-supplied metadata mapping is
replaced by a fresh dictionary (`metadata or {}` on a falsy empty dict), so
the caller's mapping is left untouched and in particular never receives the
`source` key. -/
theorem C10_counterexample :
    ingestMetadataAfter [] (some "docs") "2024-01-01T00:00:00" 42 = [] ∧
    dictGet (ingestMetadataAfter [] (some "docs") "2024-01-01T00:00:00" 42)
      "source" = none := by
  refine ⟨rfl, rfl⟩

/-- C10 amended: a caller-supplied non-empty metadata mapping is mutated in
place — `source`, `ingested_at` and `content_length` are set (overwriting
existing entries of those names) and every other entry is unchanged; an
empty supplied mapping is replaced by a fresh dictionary and left
untouched. -/
theorem C10_nonempty_metadata_mutated (m : List (String × MetaVal))
    (source : Option String) (now : String) (contentLength : Nat)
    (hm : m ≠ []) :
    dictGet (ingestMetadataAfter m source now contentLength) "source" =
      some (MetaVal.str (match source with
        | some s => if s = "" then "unknown" else s
        | none => "unknown")) ∧
    dictGet (ingestMetadataAfter m source now contentLength) "ingested_at" =
      some (MetaVal.str now) ∧
    dictGet (ingestMetadataAfter m source now contentLength) "content_length" =
      some (MetaVal.num contentLength) ∧
    ∀ k, k ≠ "source" → k ≠ "ingested_at" → k ≠ "content_length" →
      dictGet (ingestMetadataAfter m source now contentLength) k = dictGet m k := by
  unfold ingestMetadataAfter
  rw [if_neg hm]
  refine ⟨?_, ?_, ?_, ?_⟩
  · rw [dictGet_pyDictSet_other _ _ _ _ (by decide),
      dictGet_pyDictSet_other _ _ _ _ (by decide),
      dictGet_pyDictSet_same]
  · rw [dictGet_pyDictSet_other _ _ _ _ (by decide), dictGet_pyDictSet_same]
  · rw [dictGet_pyDictSet_same]
  · intro k h1 h2 h3
    rw [dictGet_pyDictSet_other _ _ _ _ h3, dictGet_pyDictSet_other _ _ _ _ h2,
      dictGet_pyDictSet_other _ _ _ _ h1]

/-- Witness for `C10_nonempty_metadata_mutated` on a concrete non-empty
mapping. -/
theorem C10_witness :
    dictGet (ingestMetadataAfter [("a", MetaVal.str "x")] (some "docs") "t" 42)
        "source" = some (MetaVal.str "docs") ∧
    dictGet (ingestMetadataAfter [("a", MetaVal.str "x")] (some "docs") "t" 42)
        "ingested_at" = some (MetaVal.str "t") ∧
    dictGet (ingestMetadataAfter [("a", MetaVal.str "x")] (some "docs") "t" 42)
        "content_length" = some (MetaVal.num 42) ∧
    dictGet (ingestMetadataAfter [("a", MetaVal.str "x")] (some "docs") "t" 42)
        "a" = dictGet [("a", MetaVal.str "x")] "a" := by
  obtain ⟨h1, h2, h3, h4⟩ := C10_nonempty_metadata_mutated
    [("a", MetaVal.str "x")] (some "docs") "t" 42 (by decide)
  exact ⟨h1, h2, h3, h4 "a" (by decide) (by decide) (by decide)⟩


end RagDemo

